import Mathlib

/-!
Verification of the openalgo-flow variable store
(`src/frontend/src/stores/variableStore.ts`) and of the spec-described
option resolver / order orchestrator.  JavaScript values are shallowly
embedded as `JsValue`; the zustand store state as `VariableState`; each
store action becomes a pure state-passing function translated from the
TypeScript source.  JS numbers are modelled as exact rationals; `NaN` is
modelled by `Option` results of the `ToNumber` coercion.
-/

set_option autoImplicit false

namespace OpenAlgoFlow

mutual

/-- A JSON-like JavaScript value as stored in the variable store.
`undefined` is not a constructor: absence is modelled by `Option JsValue`
(`none` = `undefined`), which keeps "not found" distinct from a stored
`null` exactly as in the TypeScript code.  Object fields and array
elements use the mutually defined list types so that all functions over
values are plain structural recursions. -/
inductive JsValue where
  | vNull
  | vBool (b : Bool)
  | vNum (q : ℚ)
  | vStr (s : String)
  | vObj (fields : JsFields)
  | vArr (elems : JsElems)

/-- The ordered fields of a JS object. -/
inductive JsFields where
  | nil
  | cons (key : String) (value : JsValue) (rest : JsFields)

/-- The ordered elements of a JS array. -/
inductive JsElems where
  | nil
  | cons (head : JsValue) (tail : JsElems)

end

/-- Build an object value from a Lean list of fields. -/
def jsObj (l : List (String × JsValue)) : JsValue :=
  .vObj (l.foldr (fun kv r => .cons kv.1 kv.2 r) .nil)

/-- Build an array value from a Lean list of elements. -/
def jsArr (l : List JsValue) : JsValue :=
  .vArr (l.foldr .cons .nil)

/-- JS property read on an object's fields (first match). -/
def fieldsGet : JsFields → String → Option JsValue
  | .nil, _ => none
  | .cons k v rest, key => if k = key then some v else fieldsGet rest key

/-- Number of elements of an array value. -/
def elemsLen : JsElems → ℕ
  | .nil => 0
  | .cons _ rest => elemsLen rest + 1

/-- Element at a position of an array value. -/
def elemsGet : JsElems → ℕ → Option JsValue
  | .nil, _ => none
  | .cons v _, 0 => some v
  | .cons _ rest, i + 1 => elemsGet rest i

/-- `typeof v === 'object' && v !== null` — true exactly for mappings and
lists (the two traversable value shapes). -/
def isObjLike : JsValue → Bool
  | .vObj _ => true
  | .vArr _ => true
  | _ => false

/-- JavaScript truthiness of a stored value (no `NaN` can be stored in
this model, see `toNumber`). -/
def truthy : JsValue → Bool
  | .vNull => false
  | .vBool b => b
  | .vNum q => decide (q ≠ 0)
  | .vStr s => decide (s ≠ "")
  | .vObj _ => true
  | .vArr _ => true

/-- First-match association-list lookup, modelling JS object property read
(`obj[key]`, `none` = `undefined`). -/
def getEntry {α : Type} : List (String × α) → String → Option α
  | [], _ => none
  | (k, v) :: rest, key => if k = key then some v else getEntry rest key

/-- JS object property write: replace in place when the key exists
(insertion order is preserved), otherwise append. -/
def setEntry {α : Type} : List (String × α) → String → α → List (String × α)
  | [], key, v => [(key, v)]
  | (k, w) :: rest, key, v =>
    if k = key then (k, v) :: rest else (k, w) :: setEntry rest key v

/-- JS `delete obj[key]`. -/
def delEntry {α : Type} : List (String × α) → String → List (String × α)
  | [], _ => []
  | (k, w) :: rest, key =>
    if k = key then delEntry rest key else (k, w) :: delEntry rest key

/-- JS `String.prototype.trim()` on the character list of a string. -/
def charTrim (cs : List Char) : List Char :=
  ((cs.dropWhile Char.isWhitespace).reverse.dropWhile Char.isWhitespace).reverse

/-- JS `str.split('.')` — splits at every dot, keeping empty segments,
so `"" ↦ [""]`, `"a." ↦ ["a", ""]`, `"." ↦ ["", ""]`. -/
def splitDots : List Char → List (List Char)
  | [] => [[]]
  | c :: rest =>
    if c = '.' then [] :: splitDots rest
    else
      match splitDots rest with
      | [] => [[c]]
      | s :: ss => (c :: s) :: ss

/-- JS `parts.join('.')`. -/
def joinDots : List (List Char) → List Char
  | [] => []
  | [p] => p
  | p :: ps => p ++ '.' :: joinDots ps

/-- Numeric value of a list of decimal digit characters. -/
def digitsVal (cs : List Char) : ℕ :=
  cs.foldl (fun a c => a * 10 + (c.toNat - 48)) 0

/-- Unsigned decimal numeral (`"12"`, `"1.5"`, `".5"`, `"5."`); `none`
models `NaN`. -/
def parseDecimal (cs : List Char) : Option ℚ :=
  match splitDots cs with
  | [i] => if i ≠ [] ∧ i.all Char.isDigit then some (digitsVal i : ℚ) else none
  | [i, f] =>
    if (i ++ f) ≠ [] ∧ (i ++ f).all Char.isDigit then
      some ((digitsVal i : ℚ) + (digitsVal f : ℚ) / 10 ^ f.length)
    else none
  | _ => none

/-- JS `Number(string)`: trim whitespace, empty ⇒ `0`, optional sign, then
a decimal numeral; `none` models `NaN`.  (Hex, exponent and `Infinity`
forms are not modelled; no claim depends on them.) -/
def strToNumber (s : String) : Option ℚ :=
  match charTrim s.data with
  | [] => some 0
  | '+' :: rest => parseDecimal rest
  | '-' :: rest => (parseDecimal rest).map (fun q => -q)
  | cs => parseDecimal cs

/-- Smallest exponent `e ≤ 40` with `den ∣ 10 ^ e`, used to print a
terminating decimal expansion. -/
def decExp (den : ℕ) : Option ℕ :=
  (List.range 41).find? (fun e => decide (den ∣ 10 ^ e))

/-- JS `String(number)` for the rationals arising here: integers print as
integers, decimal fractions with the shortest terminating expansion;
other rationals (which JS would print as a rounded binary double) fall
back to a `num/den` rendering. -/
def jsNumToString (q : ℚ) : String :=
  let sign : String := if q < 0 then "-" else ""
  let a : ℕ := q.num.natAbs
  if q.den = 1 then sign ++ toString a
  else
    match decExp q.den with
    | some e =>
      let scaled : ℕ := a * (10 ^ e / q.den)
      let ip : ℕ := scaled / 10 ^ e
      let fpDigits : List Char := (toString (scaled % 10 ^ e)).data
      let padded : List Char := List.replicate (e - fpDigits.length) '0' ++ fpDigits
      sign ++ toString ip ++ "." ++ String.mk padded
    | none => sign ++ toString a ++ "/" ++ toString q.den

mutual

/-- JS `String(v)` (arrays stringify as their comma-joined elements,
`null` elements joining as empty, per `Array.prototype.toString` /
`Array.prototype.join`). -/
def jsToString : JsValue → String
  | .vNull => "null"
  | .vBool b => if b then "true" else "false"
  | .vNum q => jsNumToString q
  | .vStr s => s
  | .vObj _ => "[object Object]"
  | .vArr xs => jsElemsJoin xs

/-- `Array.prototype.join(',')` over array elements; a `null` element
renders empty. -/
def jsElemsJoin : JsElems → String
  | .nil => ""
  | .cons .vNull .nil => ""
  | .cons v .nil => jsToString v
  | .cons .vNull rest => "," ++ jsElemsJoin rest
  | .cons v rest => jsToString v ++ "," ++ jsElemsJoin rest

end

/-- JS `Number(v)` (`ToNumber`); `none` models `NaN`.  Objects and arrays
coerce through their string form, per `ToPrimitive`. -/
def toNumber : JsValue → Option ℚ
  | .vNull => some 0
  | .vBool b => some (if b then 1 else 0)
  | .vNum q => some q
  | .vStr s => strToNumber s
  | v => strToNumber (jsToString v)

/-- `Number(x) || 0`: the numeric coercion the math mutators apply to the
current value (`NaN`, i.e. a non-numeric value, and an absent variable
coerce to `0`). -/
def jsNumCoerce (v : Option JsValue) : ℚ :=
  match v with
  | none => 0
  | some x => (toNumber x).getD 0

/-- JS `a || b` (used by `appendToVariable` as `getVariable(name) || ''`). -/
def jsOr (v : Option JsValue) (dflt : JsValue) : JsValue :=
  match v with
  | some x => if truthy x then x else dflt
  | none => dflt

/-- Escape a string for JSON output (the escapes relevant to this model). -/
def jsonQuote (s : String) : String :=
  "\"" ++ String.mk (s.data.flatMap (fun c =>
    if c = '"' then ['\\', '"']
    else if c = '\\' then ['\\', '\\']
    else if c = '\n' then ['\\', 'n']
    else if c = '\t' then ['\\', 't']
    else if c = '\r' then ['\\', 'r']
    else [c])) ++ "\""

mutual

/-- JS `JSON.stringify(v)` (compact form, as called inside `interpolate`). -/
def jsonStringify : JsValue → String
  | .vNull => "null"
  | .vBool b => if b then "true" else "false"
  | .vNum q => jsNumToString q
  | .vStr s => jsonQuote s
  | .vObj fields => "\x7b" ++ jsonFields fields ++ "\x7d"
  | .vArr xs => "[" ++ jsonElems xs ++ "]"

/-- Comma-joined `"key":value` pairs of an object. -/
def jsonFields : JsFields → String
  | .nil => ""
  | .cons k v .nil => jsonQuote k ++ ":" ++ jsonStringify v
  | .cons k v rest => jsonQuote k ++ ":" ++ jsonStringify v ++ "," ++ jsonFields rest

/-- Comma-joined serialized elements of an array. -/
def jsonElems : JsElems → String
  | .nil => ""
  | .cons v .nil => jsonStringify v
  | .cons v rest => jsonStringify v ++ "," ++ jsonElems rest

end

/-- A canonical array index as JS sees string keys on arrays: a decimal
numeral with no leading zero (so `"0"` is an index but `"00"`, `"01"`
are ordinary — absent — properties). -/
def parseIndex (k : String) : Option ℕ :=
  match k.data with
  | [] => none
  | c :: cs =>
    if (c :: cs).all Char.isDigit ∧ (c = '0' → cs = []) then some (digitsVal (c :: cs))
    else none

/-- The zustand store state (`VariableState` in `variableStore.ts`): one
process-wide record holding, per workflow id, that workflow's variable
mapping, plus the current workflow id (`none` = JS `null`). -/
structure VariableState where
  varsByWorkflow : List (String × List (String × JsValue))
  currentWorkflowId : Option String

/-- The store's initial state (`variables: {}, currentWorkflowId: null`). -/
def emptyState : VariableState :=
  { varsByWorkflow := [], currentWorkflowId := none }

/-- The guard `if (!currentWorkflowId) return` used by every store action:
the current workflow id is usable only when it is non-null and non-empty
(the empty string is falsy in JS). -/
def activeWid (s : VariableState) : Option String :=
  match s.currentWorkflowId with
  | none => none
  | some wid => if wid = "" then none else some wid

/-- `variables[wid]` with the JS fallback to an empty object
(`{...undefined}` is `{}`, `variables[wid] || {}`). -/
def workflowVars (s : VariableState) (wid : String) : List (String × JsValue) :=
  (getEntry s.varsByWorkflow wid).getD []

/-- `setCurrentWorkflow`: store the id, then initialize that workflow's
variable object if it does not exist yet. -/
def setCurrentWorkflow (s : VariableState) (workflowId : String) : VariableState :=
  let s1 : VariableState := { s with currentWorkflowId := some workflowId }
  match getEntry s1.varsByWorkflow workflowId with
  | some _ => s1
  | none => { s1 with varsByWorkflow := setEntry s1.varsByWorkflow workflowId [] }

/-- `setVariable`: no-op without a current workflow, otherwise write the
value under the name inside the current workflow's mapping. -/
def setVariable (s : VariableState) (name : String) (value : JsValue) : VariableState :=
  match activeWid s with
  | none => s
  | some wid =>
    { s with varsByWorkflow := setEntry s.varsByWorkflow wid (setEntry (workflowVars s wid) name value) }

/-- `getVariable`: `variables[currentWorkflowId]?.[name]`
(`none` = `undefined`). -/
def getVariable (s : VariableState) (name : String) : Option JsValue :=
  match activeWid s with
  | none => none
  | some wid => getEntry (workflowVars s wid) name

/-- One JS property read `current[key]` as performed inside
`getNestedValue`'s loop: object fields by key; array elements by
canonical index (plus the array's `length` property). -/
def indexValue : JsValue → String → Option JsValue
  | .vObj fields, k => fieldsGet fields k
  | .vArr xs, k =>
    if k = "length" then some (.vNum (elemsLen xs : ℚ))
    else
      match parseIndex k with
      | some i => elemsGet xs i
      | none => none
  | _, _ => none

/-- The loop of `getNestedValue`: walk the remaining keys, returning
`undefined` as soon as the current value is missing or not an object. -/
def nestedLoop : Option JsValue → List String → Option JsValue
  | cur, [] => cur
  | none, _ :: _ => none
  | some v, k :: ks =>
    if isObjLike v then nestedLoop (indexValue v k) ks else none

/-- `getNestedValue(obj, path)`: guard non-objects to `undefined`, then
walk the dot-separated keys. -/
def getNestedValue (obj : Option JsValue) (path : String) : Option JsValue :=
  match obj with
  | none => none
  | some v =>
    if isObjLike v then nestedLoop (some v) ((splitDots path.data).map (fun cs => String.mk cs))
    else none

/-- `getVariableByPath`: with a dotted path the first segment names a
variable and the rest (re-joined with dots, as in the source) is handed
to `getNestedValue`; otherwise a flat variable read. -/
def getVariableByPath (s : VariableState) (path : String) : Option JsValue :=
  match activeWid s with
  | none => none
  | some wid =>
    if path.data.contains '.' then
      match (splitDots path.data).map (fun cs => String.mk cs) with
      | [] => none
      | varName :: rest =>
        let varValue := getEntry (workflowVars s wid) varName
        if rest.isEmpty then varValue
        else getNestedValue varValue (String.mk (joinDots (rest.map String.data)))
    else getEntry (workflowVars s wid) path

/-- `deleteVariable`: remove the name from the current workflow's
mapping. -/
def deleteVariable (s : VariableState) (name : String) : VariableState :=
  match activeWid s with
  | none => s
  | some wid =>
    { s with varsByWorkflow := setEntry s.varsByWorkflow wid (delEntry (workflowVars s wid) name) }

/-- `clearVariables`: reset the current workflow's mapping to `{}`. -/
def clearVariables (s : VariableState) : VariableState :=
  match activeWid s with
  | none => s
  | some wid => { s with varsByWorkflow := setEntry s.varsByWorkflow wid [] }

/-- `getAllVariables`: the current workflow's mapping, `{}` without a
current workflow. -/
def getAllVariables (s : VariableState) : List (String × JsValue) :=
  match activeWid s with
  | none => []
  | some wid => workflowVars s wid

/-- `addToVariable`: `Number(current) || 0` plus the argument. -/
def addToVariable (s : VariableState) (name : String) (value : ℚ) : VariableState :=
  setVariable s name (.vNum (jsNumCoerce (getVariable s name) + value))

/-- `subtractFromVariable`. -/
def subtractFromVariable (s : VariableState) (name : String) (value : ℚ) : VariableState :=
  setVariable s name (.vNum (jsNumCoerce (getVariable s name) - value))

/-- `multiplyVariable`. -/
def multiplyVariable (s : VariableState) (name : String) (value : ℚ) : VariableState :=
  setVariable s name (.vNum (jsNumCoerce (getVariable s name) * value))

/-- `divideVariable`: a zero divisor only logs (`console.error`) and
returns without mutating; otherwise store the quotient. -/
def divideVariable (s : VariableState) (name : String) (value : ℚ) : VariableState :=
  if value = 0 then s
  else setVariable s name (.vNum (jsNumCoerce (getVariable s name) / value))

/-- `incrementVariable` = add 1. -/
def incrementVariable (s : VariableState) (name : String) : VariableState :=
  addToVariable s name 1

/-- `decrementVariable` = subtract 1. -/
def decrementVariable (s : VariableState) (name : String) : VariableState :=
  subtractFromVariable s name 1

/-- `appendToVariable`: `String(getVariable(name) || '') + value`. -/
def appendToVariable (s : VariableState) (name : String) (value : String) : VariableState :=
  setVariable s name (.vStr (jsToString (jsOr (getVariable s name) (.vStr "")) ++ value))

/-- One attempted match of the regex `\x7b\x7b([^\x7d]+)\x7d\x7d` right
after an opening `\x7b\x7b`: capture one or more non-`\x7d` characters,
then require the closing braces; returns the captured path and the
remainder. -/
def grabPH (cs : List Char) : Option (List Char × List Char) :=
  match cs.takeWhile (fun c => c != '}'), cs.dropWhile (fun c => c != '}') with
  | [], _ => none
  | p :: ps, '}' :: '}' :: r => some (p :: ps, r)
  | _, _ => none

/-- The replacement performed for one matched `\x7b\x7b path \x7d\x7d`:
trim the captured path, resolve it via `getVariableByPath`; `undefined`
and `null` keep the original match, objects/arrays serialize to JSON,
other values stringify. -/
def phRender (resolve : String → Option JsValue) (path : List Char) : List Char :=
  match resolve (String.mk (charTrim path)) with
  | none => '{' :: '{' :: (path ++ '}' :: '}' :: [])
  | some .vNull => '{' :: '{' :: (path ++ '}' :: '}' :: [])
  | some v => (if isObjLike v then jsonStringify v else jsToString v).data

/-- The global-regex replacement loop of `interpolate`, with fuel bounded
by the remaining length (each step consumes at least one character, so
`fuel = cs.length` suffices; a fuel-exhausted tail is returned verbatim
but is unreachable from `interpolate`). -/
def interpGo (resolve : String → Option JsValue) : ℕ → List Char → List Char
  | 0, cs => cs
  | _ + 1, [] => []
  | fuel + 1, '{' :: '{' :: rest =>
    match grabPH rest with
    | some (path, r) => phRender resolve path ++ interpGo resolve fuel r
    | none => '{' :: interpGo resolve fuel ('{' :: rest)
  | fuel + 1, c :: rest => c :: interpGo resolve fuel rest

/-- `interpolate(template)`: replace every `\x7b\x7b path \x7d\x7d`
occurrence via `getVariableByPath`, leaving unresolved (and `null`)
paths verbatim. -/
def interpolate (s : VariableState) (template : String) : String :=
  String.mk (interpGo (fun p => getVariableByPath s p) template.data.length template.data)

/-- The ambient clock as JS sees it: `Date.now()` and the two string
renderings used by the system variables. -/
structure JsDate where
  epochMs : ℤ
  isoString : String
  timeString : String

/-- `str.split(sep)[0]`: the prefix before the first separator. -/
def takeBefore (s : String) (sep : Char) : String :=
  String.mk (s.data.takeWhile (fun c => c != sep))

/-- The `SYSTEM_VARIABLES` table: each entry computes its value from the
clock at the moment it is called (nothing is stored). -/
def SYSTEM_VARIABLES : List (String × (JsDate → JsValue)) :=
  [("timestamp", fun d => .vNum (d.epochMs : ℚ)),
   ("date", fun d => .vStr (takeBefore d.isoString 'T')),
   ("time", fun d => .vStr (takeBefore d.timeString ' ')),
   ("datetime", fun d => .vStr d.isoString)]

/-! ### Specification-side definitions

These follow the spec's wording and are compared against the embedded
source functions by the theorems below. -/

/-- A template split into literal and placeholder pieces. -/
inductive TemplatePiece where
  | lit (s : String)
  | ph (p : String)

/-- Well-formedness making the decomposition unambiguous: literals carry
no opening brace, placeholder paths are nonempty and carry no closing
brace. -/
def wfPieceB : TemplatePiece → Bool
  | .lit s => s.data.all (fun c => c != '{')
  | .ph p => !p.data.isEmpty && p.data.all (fun c => c != '}')

/-- Concatenate the pieces back into the template's character list. -/
def flattenPiecesL : List TemplatePiece → List Char
  | [] => []
  | .lit s :: ps => s.data ++ flattenPiecesL ps
  | .ph p :: ps => '{' :: '{' :: (p.data ++ '}' :: '}' :: flattenPiecesL ps)

/-- Spec-side rendering of one piece: literals unchanged; placeholders
substituted exactly as `phRender` does. -/
def renderPieceL (resolve : String → Option JsValue) : TemplatePiece → List Char
  | .lit s => s.data
  | .ph p => phRender resolve p.data

/-- Spec-side rendering of a whole template, piece by piece. -/
def renderPiecesL (resolve : String → Option JsValue) : List TemplatePiece → List Char
  | [] => []
  | p :: ps => renderPieceL resolve p ++ renderPiecesL resolve ps

/-- Spec-side path walk (`§4.1 getByPath`): objects are entered by key,
arrays by canonical index (or `length`); any other value with segments
remaining — or a missing key — is "not found". -/
def walkKeys : Option JsValue → List String → Option JsValue
  | cur, [] => cur
  | some (.vObj fields), k :: ks => walkKeys (fieldsGet fields k) ks
  | some (.vArr xs), k :: ks => walkKeys (indexValue (.vArr xs) k) ks
  | _, _ :: _ => none

/-- Spec-side `getByPath` for dotted paths: the first dot-separated
segment names a variable, the remaining segments are walked with
`walkKeys`. -/
def pathWalkSpec (s : VariableState) (path : String) : Option JsValue :=
  match activeWid s with
  | none => none
  | some wid =>
    match (splitDots path.data).map (fun cs => String.mk cs) with
    | [] => none
    | varName :: rest => walkKeys (getEntry (workflowVars s wid) varName) rest

/-- Spec-side base of `append`: the current value coerced to text, where
(as the code's `|| ''` makes precise) any falsy or absent current value
contributes the empty string. -/
def appendBase (v : Option JsValue) : String :=
  match v with
  | some x => if truthy x then jsToString x else ""
  | none => ""

/-- CE or PE. -/
inductive OptionKind where
  | ce
  | pe

/-- `ATM`, `ITM<k>` or `OTM<k>`. -/
inductive StrikeOffset where
  | atmOff
  | itm (k : ℕ)
  | otm (k : ℕ)

/-- Modelled from the spec: the option resolver's ATM computation is not
under `src` (only the API documentation with example responses is); §4.3
says the at-the-money strike is the multiple of the strike step nearest
to the spot price, ties resolved toward the higher strike. -/
def atmStrike (spot : ℚ) (step : ℤ) : ℤ :=
  ⌊spot / (step : ℚ) + 1 / 2⌋ * step

/-- Modelled from the spec: the offset-resolution arithmetic of the
option resolver is not under `src`; §4.3 says `ITM<k>`/`OTM<k>` walk `k`
strike steps from ATM in the direction that increases intrinsic value —
down/up for CE, inverted for PE. -/
def resolveOffsetStrike (atm step : ℤ) : OptionKind → StrikeOffset → ℤ
  | _, .atmOff => atm
  | .ce, .itm k => atm - k * step
  | .ce, .otm k => atm + k * step
  | .pe, .itm k => atm + k * step
  | .pe, .otm k => atm - k * step

/-- The per-chunk outcome reported by the split orchestrator. -/
structure ChunkResult where
  order_num : ℕ
  quantity : ℕ
  success : Bool

/-- Modelled from the spec: the split orchestrator implementation is not
under `src` (only its API documentation is); §4.4 partitions
`totalQuantity` into full chunks of `splitSize` followed by a nonzero
remainder chunk. -/
def splitQuantities (total splitSize : ℕ) : List ℕ :=
  if splitSize = 0 then []
  else
    List.replicate (total / splitSize) splitSize ++
      (if total % splitSize = 0 then [] else [total % splitSize])

/-- Modelled from the spec: chunks are submitted sequentially in
ascending order and each result carries its 1-based sequence number;
a chunk's failure does not prevent later chunks (every chunk appears in
the result list with its own status from the broker). -/
def splitOrder (broker : ℕ → ℕ → Bool) (total splitSize : ℕ) : List ChunkResult :=
  (splitQuantities total splitSize).enum.map
    (fun iq => { order_num := iq.1 + 1, quantity := iq.2, success := broker (iq.1 + 1) iq.2 })

/-! ### Store algebra lemmas -/

theorem getEntry_setEntry_self {α : Type} (l : List (String × α)) (k : String) (v : α) :
    getEntry (setEntry l k v) k = some v := by
  induction l with
  | nil => simp [getEntry, setEntry]
  | cons hd tl ih =>
    obtain ⟨k', v'⟩ := hd
    by_cases h : k' = k
    · simp [getEntry, setEntry, h]
    · simp [getEntry, setEntry, h, ih]

theorem currentWorkflowId_setVariable (s : VariableState) (n : String) (v : JsValue) :
    (setVariable s n v).currentWorkflowId = s.currentWorkflowId := by
  unfold setVariable
  cases activeWid s <;> rfl

theorem activeWid_setVariable (s : VariableState) (n : String) (v : JsValue) :
    activeWid (setVariable s n v) = activeWid s := by
  unfold activeWid
  rw [currentWorkflowId_setVariable]

theorem getVariable_setVariable_self (s : VariableState) (n : String) (v : JsValue)
    (wid : String) (h : activeWid s = some wid) :
    getVariable (setVariable s n v) n = some v := by
  unfold getVariable
  rw [activeWid_setVariable, h]
  unfold setVariable
  rw [h]
  simp only [workflowVars, getEntry_setEntry_self, Option.getD_some]

theorem noWorkflow_activeWid (s : VariableState) (h : s.currentWorkflowId = none) :
    activeWid s = none := by
  unfold activeWid
  rw [h]

/-! ### C2 -/

/-- C2: dividing by zero leaves the whole store state unchanged (the code
only logs and returns), and dividing by a nonzero divisor stores the
numerically-coerced current value divided by the divisor. -/
theorem divideVariable_zero_noop_nonzero_stores (s : VariableState) (name : String)
    (d : ℚ) (wid : String) (h : activeWid s = some wid) :
    divideVariable s name 0 = s ∧
      (d ≠ 0 →
        getVariable (divideVariable s name d) name =
          some (.vNum (jsNumCoerce (getVariable s name) / d))) := by
  constructor
  · unfold divideVariable
    simp
  · intro hd
    unfold divideVariable
    rw [if_neg hd]
    exact getVariable_setVariable_self _ _ _ _ h

/-- Witness for C2 at a concrete store: workflow `w`, `x = 7`, divisor 2. -/
theorem divideVariable_zero_noop_nonzero_stores_witness :
    activeWid (setVariable (setCurrentWorkflow emptyState "w") "x" (.vNum 7)) = some "w" ∧
      (divideVariable (setVariable (setCurrentWorkflow emptyState "w") "x" (.vNum 7)) "x" 0 =
          setVariable (setCurrentWorkflow emptyState "w") "x" (.vNum 7) ∧
        ((2 : ℚ) ≠ 0 →
          getVariable
              (divideVariable (setVariable (setCurrentWorkflow emptyState "w") "x" (.vNum 7)) "x" 2)
              "x" =
            some (.vNum (jsNumCoerce
              (getVariable (setVariable (setCurrentWorkflow emptyState "w") "x" (.vNum 7)) "x") / 2)))) :=
  ⟨rfl, divideVariable_zero_noop_nonzero_stores _ "x" 2 "w" rfl⟩

/-! ### C5 -/

/-- C5: every numeric mutator applies its operation to
`Number(current) || 0`: a current value whose `ToNumber` coercion is
`NaN` (a non-numeric string, a mapping, an absent variable, …) is
treated as `0`, and a value coercing to the number `q` is treated as
`q`. -/
theorem math_mutators_numeric_coercion (s : VariableState) (name : String) (x : ℚ)
    (wid : String) (h : activeWid s = some wid) :
    ((getVariable s name).bind toNumber = none → jsNumCoerce (getVariable s name) = 0) ∧
    (∀ q : ℚ, (getVariable s name).bind toNumber = some q →
      jsNumCoerce (getVariable s name) = q) ∧
    getVariable (addToVariable s name x) name =
      some (.vNum (jsNumCoerce (getVariable s name) + x)) ∧
    getVariable (subtractFromVariable s name x) name =
      some (.vNum (jsNumCoerce (getVariable s name) - x)) ∧
    getVariable (multiplyVariable s name x) name =
      some (.vNum (jsNumCoerce (getVariable s name) * x)) ∧
    (x ≠ 0 → getVariable (divideVariable s name x) name =
      some (.vNum (jsNumCoerce (getVariable s name) / x))) ∧
    getVariable (incrementVariable s name) name =
      some (.vNum (jsNumCoerce (getVariable s name) + 1)) ∧
    getVariable (decrementVariable s name) name =
      some (.vNum (jsNumCoerce (getVariable s name) - 1)) := by
  refine ⟨?_, ?_, ?_, ?_, ?_, ?_, ?_, ?_⟩
  · intro hn
    cases ho : getVariable s name with
    | none => rfl
    | some v =>
      rw [ho] at hn
      simp only [Option.some_bind] at hn
      show (toNumber v).getD 0 = 0
      rw [hn]
      rfl
  · intro q hq
    cases ho : getVariable s name with
    | none => rw [ho] at hq; simp at hq
    | some v =>
      rw [ho] at hq
      simp only [Option.some_bind] at hq
      show (toNumber v).getD 0 = q
      rw [hq]
      rfl
  · exact getVariable_setVariable_self _ _ _ _ h
  · exact getVariable_setVariable_self _ _ _ _ h
  · exact getVariable_setVariable_self _ _ _ _ h
  · intro hx
    unfold divideVariable
    rw [if_neg hx]
    exact getVariable_setVariable_self _ _ _ _ h
  · exact getVariable_setVariable_self _ _ _ _ h
  · exact getVariable_setVariable_self _ _ _ _ h

/-- Witness for C5 at a concrete store: workflow `w`, `x` holds the
non-numeric string value `"abc"`, operand 5. -/
theorem math_mutators_numeric_coercion_witness :
    activeWid (setVariable (setCurrentWorkflow emptyState "w") "x" (.vStr "abc")) = some "w" ∧
      getVariable
          (addToVariable (setVariable (setCurrentWorkflow emptyState "w") "x" (.vStr "abc")) "x" 5)
          "x" =
        some (.vNum (jsNumCoerce
          (getVariable (setVariable (setCurrentWorkflow emptyState "w") "x" (.vStr "abc")) "x")
            + 5)) :=
  ⟨rfl, (math_mutators_numeric_coercion
    (setVariable (setCurrentWorkflow emptyState "w") "x" (.vStr "abc")) "x" 5 "w" rfl).2.2.1⟩

/-! ### C6 -/

/-- `String(v || '')` agrees with the spec-side `appendBase`. -/
theorem jsToString_jsOr_empty (v : Option JsValue) :
    jsToString (jsOr v (.vStr "")) = appendBase v := by
  cases v with
  | none => rfl
  | some x =>
    show jsToString (if truthy x = true then x else .vStr "") =
      if truthy x = true then jsToString x else ""
    by_cases hx : truthy x = true
    · rw [if_pos hx, if_pos hx]
    · rw [if_neg hx, if_neg hx]
      rfl

/-- C6 counterexample: with current value `0` (a falsy number), `append`
stores just the appended text, not `String(0) + text` — the code's
`getVariable(name) || ''` collapses falsy current values to the empty
string. -/
theorem append_swallows_zero :
    getVariable
        (appendToVariable (setVariable (setCurrentWorkflow emptyState "w") "cnt" (.vNum 0))
          "cnt" "x")
        "cnt" = some (.vStr "x") ∧
      jsToString (.vNum 0) ++ "x" = "0x" ∧ ("x" : String) ≠ "0x" :=
  ⟨rfl, rfl, by decide⟩

/-- C6 (amended): `append` stores `appendBase(current) ++ text`, where a
truthy current value contributes `String(current)` and a falsy or absent
one contributes the empty string. -/
theorem appendToVariable_stores_appendBase (s : VariableState) (name : String) (t : String)
    (wid : String) (h : activeWid s = some wid) :
    getVariable (appendToVariable s name t) name =
      some (.vStr (appendBase (getVariable s name) ++ t)) := by
  unfold appendToVariable
  rw [jsToString_jsOr_empty]
  exact getVariable_setVariable_self _ _ _ _ h

/-- Witness for the amended C6 at a concrete store: `x` holds `"ab"`,
appending `"cd"`. -/
theorem appendToVariable_stores_appendBase_witness :
    getVariable
        (appendToVariable (setVariable (setCurrentWorkflow emptyState "w") "x" (.vStr "ab"))
          "x" "cd")
        "x" =
      some (.vStr (appendBase
        (getVariable (setVariable (setCurrentWorkflow emptyState "w") "x" (.vStr "ab")) "x") ++
          "cd")) :=
  appendToVariable_stores_appendBase
    (setVariable (setCurrentWorkflow emptyState "w") "x" (.vStr "ab")) "x" "cd" "w" rfl

/-! ### C10 -/

theorem setVariable_noWid (s : VariableState) (n : String) (v : JsValue)
    (h : activeWid s = none) : setVariable s n v = s := by
  unfold setVariable
  rw [h]

/-- C10: with no current workflow (`currentWorkflowId = null`), every
mutator returns the state unchanged and every reader reports
not-found/empty. -/
theorem no_current_workflow_noop (s : VariableState) (h : s.currentWorkflowId = none)
    (name p t : String) (v : JsValue) (x : ℚ) :
    setVariable s name v = s ∧
    deleteVariable s name = s ∧
    clearVariables s = s ∧
    addToVariable s name x = s ∧
    subtractFromVariable s name x = s ∧
    multiplyVariable s name x = s ∧
    divideVariable s name x = s ∧
    incrementVariable s name = s ∧
    decrementVariable s name = s ∧
    appendToVariable s name t = s ∧
    getVariable s name = none ∧
    getVariableByPath s p = none ∧
    getAllVariables s = [] := by
  have ha : activeWid s = none := noWorkflow_activeWid s h
  have hset : ∀ n' v', setVariable s n' v' = s := fun n' v' => setVariable_noWid s n' v' ha
  refine ⟨hset _ _, ?_, ?_, hset _ _, hset _ _, hset _ _, ?_, hset _ _, hset _ _, hset _ _,
    ?_, ?_, ?_⟩
  · unfold deleteVariable
    rw [ha]
  · unfold clearVariables
    rw [ha]
  · unfold divideVariable
    split
    · rfl
    · exact hset _ _
  · unfold getVariable
    rw [ha]
  · unfold getVariableByPath
    rw [ha]
  · unfold getAllVariables
    rw [ha]

/-- Witness for C10 at the initial store state (no workflow selected). -/
theorem no_current_workflow_noop_witness :
    emptyState.currentWorkflowId = none ∧
      (setVariable emptyState "x" (.vNum 3) = emptyState ∧
        deleteVariable emptyState "x" = emptyState ∧
        clearVariables emptyState = emptyState ∧
        addToVariable emptyState "x" 2 = emptyState ∧
        subtractFromVariable emptyState "x" 2 = emptyState ∧
        multiplyVariable emptyState "x" 2 = emptyState ∧
        divideVariable emptyState "x" 2 = emptyState ∧
        incrementVariable emptyState "x" = emptyState ∧
        decrementVariable emptyState "x" = emptyState ∧
        appendToVariable emptyState "x" "t" = emptyState ∧
        getVariable emptyState "x" = none ∧
        getVariableByPath emptyState "a.b" = none ∧
        getAllVariables emptyState = []) :=
  ⟨rfl, no_current_workflow_noop emptyState rfl "x" "a.b" "t" (.vNum 3) 2⟩

/-! ### C7 -/

theorem currentWorkflowId_setCurrentWorkflow (s : VariableState) (wid : String) :
    (setCurrentWorkflow s wid).currentWorkflowId = some wid := by
  unfold setCurrentWorkflow
  dsimp only
  split <;> rfl

theorem setCurrentWorkflow_existing (s : VariableState) (wid : String)
    (M : List (String × JsValue)) (h : getEntry s.varsByWorkflow wid = some M) :
    setCurrentWorkflow s wid = { s with currentWorkflowId := some wid } := by
  unfold setCurrentWorkflow
  dsimp only
  rw [h]

theorem activeWid_setCurrentWorkflow (s : VariableState) (wid : String) (h : wid ≠ "") :
    activeWid (setCurrentWorkflow s wid) = some wid := by
  unfold activeWid
  rw [currentWorkflowId_setCurrentWorkflow]
  simp [h]

theorem varsByWorkflow_setVariable (s : VariableState) (wid name : String) (v : JsValue)
    (h : activeWid s = some wid) :
    (setVariable s name v).varsByWorkflow =
      setEntry s.varsByWorkflow wid (setEntry (workflowVars s wid) name v) := by
  unfold setVariable
  rw [h]

/-- C7 counterexample: the store is one process-wide zustand instance
keyed by workflow id.  A first run of workflow `w` writes `x`; when a
later run of the same workflow starts (`setCurrentWorkflow "w"` fires
again), the variable written by the first run is still observable —
nothing creates a fresh per-run context or discards the old one. -/
theorem cross_run_variable_visible :
    getVariable
        (setCurrentWorkflow
          (setVariable (setCurrentWorkflow emptyState "w") "x" (.vNum 1)) "w")
        "x" = some (.vNum 1) ∧
      getAllVariables
          (setCurrentWorkflow
            (setVariable (setCurrentWorkflow emptyState "w") "x" (.vNum 1)) "w") =
        [("x", .vNum 1)] :=
  ⟨rfl, rfl⟩

/-- C7 (amended): the variable context is a process-wide store keyed by
workflow id, not a per-run instance: for every prior store state, a
value written under workflow `wid` remains observable after
`setCurrentWorkflow wid` starts the next run of that workflow. -/
theorem variables_persist_across_runs (s : VariableState) (wid name : String) (v : JsValue)
    (h : wid ≠ "") :
    getVariable (setCurrentWorkflow (setVariable (setCurrentWorkflow s wid) name v) wid) name =
      some v := by
  have ha1 : activeWid (setCurrentWorkflow s wid) = some wid :=
    activeWid_setCurrentWorkflow s wid h
  have hget : getEntry (setVariable (setCurrentWorkflow s wid) name v).varsByWorkflow wid =
      some (setEntry (workflowVars (setCurrentWorkflow s wid) wid) name v) := by
    rw [varsByWorkflow_setVariable _ _ _ _ ha1]
    exact getEntry_setEntry_self _ _ _
  rw [setCurrentWorkflow_existing _ _ _ hget]
  unfold getVariable activeWid workflowVars
  simp only [if_neg h, hget, Option.getD_some, getEntry_setEntry_self]

/-- Witness for the amended C7: concrete first run writing `x := 1`. -/
theorem variables_persist_across_runs_witness :
    ("w" : String) ≠ "" ∧
      getVariable
          (setCurrentWorkflow
            (setVariable (setCurrentWorkflow emptyState "w") "x" (.vNum 1)) "w")
          "x" = some (.vNum 1) :=
  ⟨by decide, variables_persist_across_runs emptyState "w" "x" (.vNum 1) (by decide)⟩

/-! ### C3 -/

/-- C3: each of the four `SYSTEM_VARIABLES` entries computes its value
from the clock at the moment of the read (nothing is stored), but
`interpolate` resolves placeholders only through `getVariableByPath`,
which never consults `SYSTEM_VARIABLES`: in a fresh workflow context the
four system-variable templates all come back verbatim instead of
resolving.  This contradicts the table's own documentation ("always
available") and the spec. -/
theorem system_variables_not_resolvable_by_interpolate :
    (∀ d : JsDate,
      (getEntry SYSTEM_VARIABLES "timestamp").map (fun f => f d) =
          some (.vNum (d.epochMs : ℚ)) ∧
        (getEntry SYSTEM_VARIABLES "date").map (fun f => f d) =
          some (.vStr (takeBefore d.isoString 'T')) ∧
        (getEntry SYSTEM_VARIABLES "time").map (fun f => f d) =
          some (.vStr (takeBefore d.timeString ' ')) ∧
        (getEntry SYSTEM_VARIABLES "datetime").map (fun f => f d) =
          some (.vStr d.isoString)) ∧
      interpolate (setCurrentWorkflow emptyState "w") "\x7b\x7btimestamp\x7d\x7d" =
        "\x7b\x7btimestamp\x7d\x7d" ∧
      interpolate (setCurrentWorkflow emptyState "w") "\x7b\x7bdate\x7d\x7d" =
        "\x7b\x7bdate\x7d\x7d" ∧
      interpolate (setCurrentWorkflow emptyState "w") "\x7b\x7btime\x7d\x7d" =
        "\x7b\x7btime\x7d\x7d" ∧
      interpolate (setCurrentWorkflow emptyState "w") "\x7b\x7bdatetime\x7d\x7d" =
        "\x7b\x7bdatetime\x7d\x7d" :=
  ⟨fun _ => ⟨rfl, rfl, rfl, rfl⟩, rfl, rfl, rfl, rfl⟩

/-! ### C4 -/

theorem splitDots_ne_nil (cs : List Char) : splitDots cs ≠ [] := by
  induction cs with
  | nil => simp [splitDots]
  | cons c rest ih =>
    unfold splitDots
    by_cases hc : c = '.'
    · simp [hc]
    · rw [if_neg hc]
      cases h : splitDots rest with
      | nil => exact absurd h ih
      | cons s ss => simp

theorem splitDots_no_dot (cs : List Char) :
    ∀ p ∈ splitDots cs, '.' ∉ p := by
  induction cs with
  | nil =>
    intro p hp
    simp [splitDots] at hp
    simp [hp]
  | cons c rest ih =>
    intro p hp
    unfold splitDots at hp
    by_cases hc : c = '.'
    · rw [if_pos hc] at hp
      rcases List.mem_cons.mp hp with h1 | h2
      · simp [h1]
      · exact ih p h2
    · rw [if_neg hc] at hp
      cases h : splitDots rest with
      | nil => exact absurd h (splitDots_ne_nil rest)
      | cons s ss =>
        rw [h] at hp
        rcases List.mem_cons.mp hp with h1 | h2
        · subst h1
          intro hmem
          rcases List.mem_cons.mp hmem with h3 | h4
          · exact hc h3.symm
          · exact ih s (h ▸ List.mem_cons_self s ss) h4
        · exact ih p (h ▸ List.mem_cons_of_mem s h2)

theorem splitDots_single (p : List Char) (h : '.' ∉ p) : splitDots p = [p] := by
  induction p with
  | nil => rfl
  | cons c cs ih =>
    have hc : c ≠ '.' := fun hcc => h (by simp [hcc])
    have hcs : '.' ∉ cs := fun hmem => h (List.mem_cons_of_mem c hmem)
    unfold splitDots
    rw [if_neg hc, ih hcs]

theorem splitDots_append_dot (p t : List Char) (h : '.' ∉ p) :
    splitDots (p ++ '.' :: t) = p :: splitDots t := by
  induction p with
  | nil => simp [splitDots]
  | cons c cs ih =>
    have hc : c ≠ '.' := fun hcc => h (by simp [hcc])
    have hcs : '.' ∉ cs := fun hmem => h (List.mem_cons_of_mem c hmem)
    show splitDots (c :: (cs ++ '.' :: t)) = (c :: cs) :: splitDots t
    conv_lhs => rw [splitDots]
    rw [if_neg hc, ih hcs]

theorem splitDots_joinDots (parts : List (List Char)) (hne : parts ≠ [])
    (hd : ∀ p ∈ parts, '.' ∉ p) : splitDots (joinDots parts) = parts := by
  induction parts with
  | nil => exact absurd rfl hne
  | cons p rest ih =>
    cases rest with
    | nil =>
      show splitDots (joinDots [p]) = [p]
      exact splitDots_single p (hd p (List.mem_cons_self _ _))
    | cons q rest' =>
      show splitDots (p ++ '.' :: joinDots (q :: rest')) = p :: q :: rest'
      rw [splitDots_append_dot p _ (hd p (List.mem_cons_self _ _))]
      rw [ih (by simp) (fun r hr => hd r (List.mem_cons_of_mem p hr))]

theorem contains_dot_two_parts (cs : List Char) (h : cs.contains '.' = true) :
    2 ≤ (splitDots cs).length := by
  induction cs with
  | nil => simp at h
  | cons c rest ih =>
    unfold splitDots
    by_cases hc : c = '.'
    · rw [if_pos hc]
      have := splitDots_ne_nil rest
      have hlen : 1 ≤ (splitDots rest).length := List.length_pos.mpr this
      simp only [List.length_cons]
      omega
    · rw [if_neg hc]
      have hrest : rest.contains '.' = true := by
        simp only [List.contains_cons] at h
        rcases Bool.or_eq_true_iff.mp h with h1 | h2
        · exact absurd (beq_iff_eq.mp h1).symm hc
        · exact h2
      have h2 := ih hrest
      cases hsd : splitDots rest with
      | nil => exact absurd hsd (splitDots_ne_nil rest)
      | cons s ss =>
        rw [hsd] at h2
        simp only [List.length_cons] at h2 ⊢
        omega

theorem nestedLoop_eq_walkKeys (ks : List String) (cur : Option JsValue) :
    nestedLoop cur ks = walkKeys cur ks := by
  induction ks generalizing cur with
  | nil =>
    cases cur with
    | none => rfl
    | some v => cases v <;> rfl
  | cons k ks' ih =>
    cases cur with
    | none => rfl
    | some v =>
      cases v with
      | vObj fields => exact ih (fieldsGet fields k)
      | vArr xs => exact ih (indexValue (.vArr xs) k)
      | vNull => rfl
      | vBool b => rfl
      | vNum q => rfl
      | vStr str => rfl

theorem getNestedValue_joinDots (obj : Option JsValue) (k : List Char)
    (rest : List (List Char)) (hd : ∀ q ∈ k :: rest, '.' ∉ q) :
    getNestedValue obj (String.mk (joinDots (k :: rest))) =
      walkKeys obj ((k :: rest).map (fun cs => String.mk cs)) := by
  cases obj with
  | none => rfl
  | some v =>
    unfold getNestedValue
    dsimp only
    have hsplit : splitDots (joinDots (k :: rest)) = k :: rest :=
      splitDots_joinDots (k :: rest) (by simp) hd
    rw [hsplit]
    by_cases hv : isObjLike v = true
    · rw [if_pos hv]
      exact nestedLoop_eq_walkKeys _ _
    · rw [if_neg hv]
      cases v with
      | vObj fields => simp [isObjLike] at hv
      | vArr xs => simp [isObjLike] at hv
      | vNull => rfl
      | vBool b => rfl
      | vNum q => rfl
      | vStr str => rfl

/-- C4 counterexample: a stored list is traversed by a numeric path
segment — `x.0` on `x = [10]` returns the element `10` rather than the
distinguished not-found result, although a list is not a mapping. -/
theorem getVariableByPath_traverses_list :
    getVariableByPath
        (setVariable (setCurrentWorkflow emptyState "w") "x" (jsArr [.vNum 10])) "x.0" =
      some (.vNum 10) ∧
      (∀ fields : JsFields, jsArr [.vNum 10] ≠ .vObj fields) :=
  ⟨rfl, fun _ h => JsValue.noConfusion h⟩

/-- C4 (amended): for every dotted path, `getVariableByPath` equals the
spec-side walk: the first segment names a variable, the remaining
segments enter mappings by key and lists by canonical numeric index (or
`length`); the walk yields the distinguished not-found `none` — distinct
from a stored `null` — whenever a segment is absent or the value reached
is neither a mapping nor a list. -/
theorem getVariableByPath_eq_pathWalkSpec (s : VariableState) (p : String)
    (h : p.data.contains '.' = true) :
    getVariableByPath s p = pathWalkSpec s p := by
  unfold getVariableByPath pathWalkSpec
  cases ha : activeWid s with
  | none => rfl
  | some wid =>
    dsimp only
    rw [if_pos h]
    cases hsd : splitDots p.data with
    | nil => exact absurd hsd (splitDots_ne_nil _)
    | cons v tl =>
      cases tl with
      | nil =>
        have h2 := contains_dot_two_parts p.data h
        rw [hsd] at h2
        simp at h2
      | cons k rest =>
        dsimp only [List.map]
        have hdata : (List.map (fun cs => String.mk cs) rest).map String.data = rest := by
          rw [List.map_map]
          exact List.map_id'' (fun cs => rfl) rest
        have hdots : ∀ q ∈ k :: rest, '.' ∉ q := by
          intro q hq
          exact splitDots_no_dot p.data q (hsd ▸ List.mem_cons_of_mem v hq)
        show (if (String.mk k :: List.map (fun cs => String.mk cs) rest).isEmpty = true
            then getEntry (workflowVars s wid) (String.mk v)
            else getNestedValue (getEntry (workflowVars s wid) (String.mk v))
              (String.mk (joinDots ((String.mk k :: List.map (fun cs => String.mk cs) rest).map
                String.data)))) =
          walkKeys (getEntry (workflowVars s wid) (String.mk v))
            (String.mk k :: List.map (fun cs => String.mk cs) rest)
        rw [if_neg (by simp)]
        have : (String.mk k :: List.map (fun cs => String.mk cs) rest).map String.data =
            k :: rest := by
          simp only [List.map_cons, hdata]
        rw [this]
        have hwalk := getNestedValue_joinDots
          (getEntry (workflowVars s wid) (String.mk v)) k rest hdots
        rw [hwalk]
        simp only [List.map_cons]

/-- Witness for the amended C4 at a concrete dotted path. -/
theorem getVariableByPath_eq_pathWalkSpec_witness :
    ("x.a".data.contains '.' = true) ∧
      getVariableByPath
          (setVariable (setCurrentWorkflow emptyState "w") "x" (jsObj [("a", .vNum 5)])) "x.a" =
        pathWalkSpec
          (setVariable (setCurrentWorkflow emptyState "w") "x" (jsObj [("a", .vNum 5)])) "x.a" :=
  ⟨by decide, getVariableByPath_eq_pathWalkSpec
    (setVariable (setCurrentWorkflow emptyState "w") "x" (jsObj [("a", .vNum 5)])) "x.a"
    (by decide)⟩

/-! ### C1 -/

theorem interpGo_bb (r : String → Option JsValue) (f : ℕ) (rest : List Char) :
    interpGo r (f + 1) ('{' :: '{' :: rest) =
      match grabPH rest with
      | some (path, rr) => phRender r path ++ interpGo r f rr
      | none => '{' :: interpGo r f ('{' :: rest) := rfl

theorem interpGo_cons_ne (r : String → Option JsValue) (f : ℕ) (c : Char) (cs : List Char)
    (h : c ≠ '{') : interpGo r (f + 1) (c :: cs) = c :: interpGo r f cs := by
  rw [interpGo.eq_def]
  split
  · rename_i heq
    exact absurd heq (Nat.succ_ne_zero f)
  · rename_i n heq1 heq2
    exact absurd heq2 (by simp)
  · rename_i fuel rest heq1 heq2
    injection heq2 with hc _
    exact absurd hc h
  · rename_i fuel c2 rest heq1 heq2
    injection heq1 with hf
    injection heq2 with hc hcs
    subst hf
    subst hc
    subst hcs
    rfl

theorem interpGo_brace_cons_ne (r : String → Option JsValue) (f : ℕ) (c2 : Char)
    (rest : List Char) (h : c2 ≠ '{') :
    interpGo r (f + 1) ('{' :: c2 :: rest) = '{' :: interpGo r f (c2 :: rest) := by
  rw [interpGo.eq_def]
  split
  · rename_i heq
    exact absurd heq (Nat.succ_ne_zero f)
  · rename_i n heq1 heq2
    exact absurd heq2 (by simp)
  · rename_i fuel rest' heq1 heq2
    injection heq2 with _ htl
    injection htl with hc2 _
    exact absurd hc2 h
  · rename_i fuel c' rest' heq1 heq2
    injection heq1 with hf
    injection heq2 with hc' htl
    subst hf
    subst hc'
    subst htl
    rfl

theorem takeWhile_nb_append (p t : List Char) (hp : ∀ c ∈ p, (c != '}') = true) :
    (p ++ '}' :: t).takeWhile (fun c => c != '}') = p ∧
      (p ++ '}' :: t).dropWhile (fun c => c != '}') = '}' :: t := by
  induction p with
  | nil => simp [List.takeWhile_cons, List.dropWhile_cons]
  | cons c cs ih =>
    have hc : (c != '}') = true := hp c (List.mem_cons_self _ _)
    have hcs : ∀ c' ∈ cs, (c' != '}') = true := fun c' hm => hp c' (List.mem_cons_of_mem c hm)
    obtain ⟨ht, hd⟩ := ih hcs
    constructor
    · show ((c :: (cs ++ '}' :: t)).takeWhile fun c => c != '}') = c :: cs
      rw [List.takeWhile_cons, if_pos hc, ht]
    · show ((c :: (cs ++ '}' :: t)).dropWhile fun c => c != '}') = '}' :: t
      rw [List.dropWhile_cons, if_pos hc, hd]

theorem grabPH_append (p r : List Char) (hne : p ≠ []) (hp : ∀ c ∈ p, (c != '}') = true) :
    grabPH (p ++ '}' :: '}' :: r) = some (p, r) := by
  obtain ⟨ht, hd⟩ := takeWhile_nb_append p ('}' :: r) hp
  cases p with
  | nil => exact absurd rfl hne
  | cons c cs =>
    unfold grabPH
    rw [ht, hd]
    rfl

theorem grabPH_some_shape (cs p rr : List Char) (h : grabPH cs = some (p, rr)) :
    cs.length = p.length + 2 + rr.length ∧ p ≠ [] := by
  unfold grabPH at h
  split at h
  · exact absurd h (by simp)
  · rename_i p0 ps r heq1 heq2
    injection h with hpair
    have hcat : (p0 :: ps) ++ '}' :: '}' :: r = cs := by
      rw [← heq1, ← heq2]
      exact List.takeWhile_append_dropWhile _ _
    have hp : p = p0 :: ps := (congrArg Prod.fst hpair).symm
    have hr : rr = r := (congrArg Prod.snd hpair).symm
    subst hp
    subst hr
    constructor
    · rw [← hcat]
      simp
      omega
    · simp
  · exact absurd h (by simp)

theorem interpGo_fuel_irrel (r : String → Option JsValue) :
    ∀ f g cs, cs.length ≤ f → cs.length ≤ g → interpGo r f cs = interpGo r g cs := by
  intro f
  induction f with
  | zero =>
    intro g cs h0 _
    have : cs = [] := List.length_eq_zero.mp (Nat.le_zero.mp h0)
    subst this
    cases g <;> rfl
  | succ f ih =>
    intro g cs hf hg
    cases cs with
    | nil => cases g <;> rfl
    | cons c cs' =>
      obtain ⟨g', rfl⟩ : ∃ g', g = g' + 1 := by
        cases g with
        | zero => simp at hg
        | succ g' => exact ⟨g', rfl⟩
      by_cases hc : c = '{'
      · subst hc
        cases cs' with
        | nil =>
          show '{' :: interpGo r f [] = '{' :: interpGo r g' []
          rw [ih g' [] (by simp) (by simp)]
        | cons c2 rest =>
          by_cases hc2 : c2 = '{'
          · subst hc2
            rw [interpGo_bb, interpGo_bb]
            cases hg2 : grabPH rest with
            | some pr =>
              obtain ⟨p, rr⟩ := pr
              obtain ⟨hlen, hpne⟩ := grabPH_some_shape rest p rr hg2
              have hppos : 1 ≤ p.length := List.length_pos.mpr hpne
              simp only [List.length_cons] at hf hg
              dsimp only
              congr 1
              exact ih g' rr (by omega) (by omega)
            | none =>
              simp only [List.length_cons] at hf hg
              dsimp only
              congr 1
              exact ih g' ('{' :: rest) (by simp; omega) (by simp; omega)
          · rw [interpGo_brace_cons_ne r f c2 rest hc2,
              interpGo_brace_cons_ne r g' c2 rest hc2]
            simp only [List.length_cons] at hf hg
            congr 1
            exact ih g' (c2 :: rest) (by simp; omega) (by simp; omega)
      · rw [interpGo_cons_ne r f c cs' hc, interpGo_cons_ne r g' c cs' hc]
        simp only [List.length_cons] at hf hg
        congr 1
        exact ih g' cs' (by omega) (by omega)

theorem interpGo_lit_append (r : String → Option JsValue) (lit : List Char)
    (hlit : ∀ c ∈ lit, c ≠ '{') :
    ∀ f g cs, (lit ++ cs).length ≤ f → cs.length ≤ g →
      interpGo r f (lit ++ cs) = lit ++ interpGo r g cs := by
  induction lit with
  | nil =>
    intro f g cs hf hg
    simp only [List.nil_append] at hf ⊢
    exact interpGo_fuel_irrel r f g cs hf hg
  | cons c lit' ih =>
    intro f g cs hf hg
    have hc : c ≠ '{' := hlit c (List.mem_cons_self _ _)
    obtain ⟨f', rfl⟩ : ∃ f', f = f' + 1 := by
      cases f with
      | zero => simp at hf
      | succ f' => exact ⟨f', rfl⟩
    show interpGo r (f' + 1) (c :: (lit' ++ cs)) = c :: (lit' ++ interpGo r g cs)
    rw [interpGo_cons_ne r f' c _ hc]
    simp only [List.length_cons, List.length_append] at hf
    congr 1
    exact ih (fun c' hm => hlit c' (List.mem_cons_of_mem c hm)) f' g cs
      (by simp; omega) hg

theorem interpGo_ph_append (r : String → Option JsValue) (p : List Char) (hne : p ≠ [])
    (hp : ∀ c ∈ p, (c != '}') = true) :
    ∀ f g cs, ('{' :: '{' :: (p ++ '}' :: '}' :: cs)).length ≤ f → cs.length ≤ g →
      interpGo r f ('{' :: '{' :: (p ++ '}' :: '}' :: cs)) = phRender r p ++ interpGo r g cs := by
  intro f g cs hf hg
  obtain ⟨f', rfl⟩ : ∃ f', f = f' + 1 := by
    cases f with
    | zero => simp at hf
    | succ f' => exact ⟨f', rfl⟩
  rw [interpGo_bb, grabPH_append p cs hne hp]
  simp only [List.length_cons, List.length_append] at hf
  dsimp only
  congr 1
  exact interpGo_fuel_irrel r f' g cs (by omega) hg

theorem interpGo_pieces (r : String → Option JsValue) :
    ∀ ps : List TemplatePiece, ps.all wfPieceB = true →
      ∀ f, (flattenPiecesL ps).length ≤ f →
        interpGo r f (flattenPiecesL ps) = renderPiecesL r ps := by
  intro ps
  induction ps with
  | nil =>
    intro _ f _
    cases f <;> rfl
  | cons pc ps' ih =>
    intro hwf f hf
    rw [List.all_cons, Bool.and_eq_true] at hwf
    obtain ⟨hwf1, hwf2⟩ := hwf
    cases pc with
    | lit s =>
      have hchars : ∀ c ∈ s.data, c ≠ '{' := by
        intro c hm
        have := List.all_eq_true.mp hwf1 c hm
        exact bne_iff_ne.mp this
      show interpGo r f (s.data ++ flattenPiecesL ps') = s.data ++ renderPiecesL r ps'
      rw [interpGo_lit_append r s.data hchars f (flattenPiecesL ps').length _
        (by exact hf) le_rfl]
      congr 1
      exact ih hwf2 _ le_rfl
    | ph p =>
      simp only [wfPieceB, Bool.and_eq_true, Bool.not_eq_true'] at hwf1
      obtain ⟨hpe, hpc⟩ := hwf1
      have hne : p.data ≠ [] := by
        intro hnil
        rw [hnil] at hpe
        simp at hpe
      have hpchars : ∀ c ∈ p.data, (c != '}') = true := List.all_eq_true.mp hpc
      show interpGo r f ('{' :: '{' :: (p.data ++ '}' :: '}' :: flattenPiecesL ps')) =
        phRender r p.data ++ renderPiecesL r ps'
      rw [interpGo_ph_append r p.data hne hpchars f (flattenPiecesL ps').length _
        (by exact hf) le_rfl]
      congr 1
      exact ih hwf2 _ le_rfl

/-- C1 counterexample: a stored `null` — a scalar value whose path
resolves via `getVariableByPath` — is left verbatim by `interpolate`,
which treats a resolved `null` like an unresolved path. -/
theorem interpolate_leaves_resolved_null_verbatim :
    getVariableByPath (setVariable (setCurrentWorkflow emptyState "w") "x" .vNull) "x" =
        some .vNull ∧
      interpolate (setVariable (setCurrentWorkflow emptyState "w") "x" .vNull)
          "\x7b\x7bx\x7d\x7d" = "\x7b\x7bx\x7d\x7d" ∧
      jsToString .vNull = "null" ∧ ("\x7b\x7bx\x7d\x7d" : String) ≠ "null" :=
  ⟨rfl, rfl, rfl, by decide⟩

/-- C1 (amended): for every well-formed decomposition of a template into
literal pieces and placeholder pieces, `interpolate` substitutes exactly
the placeholders whose (trimmed) path resolves via `getVariableByPath`
to a non-`null` value — mappings/lists as their JSON text, other values
stringified — and leaves every other placeholder (unresolved path, or a
path resolving to `null`) character-for-character verbatim, as
`phRender` specifies piece by piece. -/
theorem interpolate_renders_pieces (s : VariableState) (ps : List TemplatePiece)
    (h : ps.all wfPieceB = true) :
    interpolate s (String.mk (flattenPiecesL ps)) =
      String.mk (renderPiecesL (fun p => getVariableByPath s p) ps) := by
  unfold interpolate
  congr 1
  exact interpGo_pieces _ ps h _ le_rfl

/-- Witness for the amended C1: template `"A \x7b\x7bx\x7d\x7d!"` with
`x = "hi"`, i.e. pieces `[lit "A ", ph "x", lit "!"]`. -/
theorem interpolate_renders_pieces_witness :
    ([TemplatePiece.lit "A ", TemplatePiece.ph "x", TemplatePiece.lit "!"].all wfPieceB
        = true) ∧
      interpolate (setVariable (setCurrentWorkflow emptyState "w") "x" (.vStr "hi"))
          (String.mk (flattenPiecesL
            [TemplatePiece.lit "A ", TemplatePiece.ph "x", TemplatePiece.lit "!"])) =
        String.mk (renderPiecesL
          (fun p => getVariableByPath
            (setVariable (setCurrentWorkflow emptyState "w") "x" (.vStr "hi")) p)
          [TemplatePiece.lit "A ", TemplatePiece.ph "x", TemplatePiece.lit "!"]) :=
  ⟨by decide, interpolate_renders_pieces
    (setVariable (setCurrentWorkflow emptyState "w") "x" (.vStr "hi"))
    [TemplatePiece.lit "A ", TemplatePiece.ph "x", TemplatePiece.lit "!"] (by decide)⟩

/-! ### C8 -/

theorem atmStrike_eval (spot : ℚ) (step n : ℤ)
    (h1 : (n : ℚ) ≤ spot / (step : ℚ) + 1 / 2)
    (h2 : spot / (step : ℚ) + 1 / 2 < n + 1) : atmStrike spot step = n * step := by
  unfold atmStrike
  have : ⌊spot / (step : ℚ) + 1 / 2⌋ = n := Int.floor_eq_iff.mpr ⟨h1, h2⟩
  rw [this]

/-- The spec's explicit tie-break: a spot price exactly halfway between
two strikes resolves ATM to the higher strike. -/
theorem atmStrike_halfway_rounds_up : atmStrike 25975 50 = 26000 :=
  (atmStrike_eval 25975 50 520 (by norm_num) (by norm_num)).trans (by decide)

/-- C8: `ITM<k>`/`OTM<k>` walk `k` strike steps from the at-the-money
strike `A` (step `S`): for CE options ITM moves down (`A - k*S`) and OTM
up (`A + k*S`); for PE options the directions invert.  The concrete
conjuncts check the model against every option-order, option-symbol and
option-chain example documented in the repository (spot 25966.05 ⇒ ATM
25950, ITM4 PE 26150, OTM5 CE 26200; spot 26050.45 ⇒ iron-condor legs;
spot 26052.65 ⇒ diagonal-spread legs; spot 25966.4 ⇒ option-symbol
examples; spot 26215.55 ⇒ ATM 26200 with 26100 labelled ITM2/CE and
OTM2/PE). -/
theorem offset_strike_directions (A S : ℤ) (k : ℕ) :
    (resolveOffsetStrike A S .ce (.itm k) = A - (k : ℤ) * S ∧
      resolveOffsetStrike A S .ce (.otm k) = A + (k : ℤ) * S ∧
      resolveOffsetStrike A S .pe (.itm k) = A + (k : ℤ) * S ∧
      resolveOffsetStrike A S .pe (.otm k) = A - (k : ℤ) * S ∧
      resolveOffsetStrike A S .ce .atmOff = A ∧
      resolveOffsetStrike A S .pe .atmOff = A) ∧
    (atmStrike (2596605 / 100) 50 = 25950 ∧
      resolveOffsetStrike 25950 50 .pe (.itm 4) = 26150 ∧
      resolveOffsetStrike 25950 50 .ce (.otm 5) = 26200) ∧
    (atmStrike (2605045 / 100) 50 = 26050 ∧
      resolveOffsetStrike 26050 50 .ce (.otm 6) = 26350 ∧
      resolveOffsetStrike 26050 50 .pe (.otm 6) = 25750 ∧
      resolveOffsetStrike 26050 50 .ce (.otm 4) = 26250 ∧
      resolveOffsetStrike 26050 50 .pe (.otm 4) = 25850) ∧
    (atmStrike (2605265 / 100) 50 = 26050 ∧
      resolveOffsetStrike 26050 50 .ce (.itm 2) = 25950 ∧
      resolveOffsetStrike 26050 50 .ce (.otm 2) = 26150) ∧
    (atmStrike (259664 / 10) 50 = 25950 ∧
      resolveOffsetStrike 25950 50 .pe (.itm 3) = 26100 ∧
      resolveOffsetStrike 25950 50 .ce (.otm 4) = 26150) ∧
    (atmStrike (2621555 / 100) 50 = 26200 ∧
      resolveOffsetStrike 26200 50 .ce (.itm 2) = 26100 ∧
      resolveOffsetStrike 26200 50 .pe (.otm 2) = 26100) := by
  refine ⟨⟨rfl, rfl, rfl, rfl, rfl, rfl⟩, ⟨?_, by decide, by decide⟩,
    ⟨?_, by decide, by decide, by decide, by decide⟩, ⟨?_, by decide, by decide⟩,
    ⟨?_, by decide, by decide⟩, ⟨?_, by decide, by decide⟩⟩
  · exact (atmStrike_eval _ _ 519 (by norm_num) (by norm_num)).trans (by decide)
  · exact (atmStrike_eval _ _ 521 (by norm_num) (by norm_num)).trans (by decide)
  · exact (atmStrike_eval _ _ 521 (by norm_num) (by norm_num)).trans (by decide)
  · exact (atmStrike_eval _ _ 519 (by norm_num) (by norm_num)).trans (by decide)
  · exact (atmStrike_eval _ _ 524 (by norm_num) (by norm_num)).trans (by decide)

/-! ### C9 -/

theorem ceil_div_eq (total s : ℕ) (hs : 0 < s) :
    (total + s - 1) / s = total / s + (if total % s = 0 then 0 else 1) := by
  have hmod := Nat.div_add_mod total s
  have hr : total % s < s := Nat.mod_lt _ hs
  by_cases h0 : total % s = 0
  · rw [if_pos h0]
    have h1 : total + s - 1 = s * (total / s) + (s - 1) := by omega
    have h2 : (s - 1) / s = 0 := Nat.div_eq_of_lt (by omega)
    rw [h1, Nat.mul_add_div hs, h2]
  · rw [if_neg h0]
    have hd : s * (total / s + 1) = s * (total / s) + s := by ring
    have h1 : total + s - 1 = s * (total / s + 1) + (total % s - 1) := by omega
    have h2 : (total % s - 1) / s = 0 := Nat.div_eq_of_lt (by omega)
    rw [h1, Nat.mul_add_div hs, h2]

theorem splitQuantities_length (total s : ℕ) (hs : 0 < s) :
    (splitQuantities total s).length = (total + s - 1) / s := by
  unfold splitQuantities
  rw [if_neg hs.ne', ceil_div_eq total s hs]
  by_cases h0 : total % s = 0
  · simp [h0]
  · simp [h0]

theorem splitQuantities_sum (total s : ℕ) (hs : 0 < s) :
    (splitQuantities total s).sum = total := by
  unfold splitQuantities
  rw [if_neg hs.ne']
  have hmod := Nat.div_add_mod total s
  have hmod2 : total / s * s + total % s = total := by
    rw [Nat.mul_comm s (total / s)] at hmod
    exact hmod
  by_cases h0 : total % s = 0
  · simp only [h0, if_pos]
    simp [List.sum_replicate, smul_eq_mul]
    omega
  · rw [if_neg h0]
    rw [List.sum_append, List.sum_replicate, smul_eq_mul]
    simp
    omega

theorem splitQuantities_form (total s : ℕ) (ht : 0 < total) (hs : 0 < s) :
    splitQuantities total s =
      List.replicate ((total + s - 1) / s - 1) s ++
        [if total % s = 0 then s else total % s] := by
  have hceil := ceil_div_eq total s hs
  have hmod := Nat.div_add_mod total s
  unfold splitQuantities
  rw [if_neg hs.ne']
  by_cases h0 : total % s = 0
  · rw [if_pos h0] at hceil
    rw [if_pos h0, if_pos h0]
    have hq : 0 < total / s := by
      rcases Nat.eq_zero_or_pos (total / s) with h | h
      · rw [h] at hmod
        omega
      · exact h
    have hn : (total + s - 1) / s - 1 = total / s - 1 := by
      rw [hceil, Nat.add_zero]
    have hsucc : total / s = (total / s - 1) + 1 := by omega
    rw [hn, hsucc, List.replicate_succ']
    simp
  · rw [if_neg h0] at hceil
    rw [if_neg h0, if_neg h0]
    have hn : (total + s - 1) / s - 1 = total / s := by
      rw [hceil]
      exact Nat.add_sub_cancel _ _
    rw [hn]

/-- C9: for positive `totalQuantity` and `splitSize` the split
orchestrator produces exactly `⌈totalQuantity / splitSize⌉` chunks —
every chunk of quantity `splitSize` except the final chunk, which is
`totalQuantity % splitSize` when that is nonzero — numbered `1..n` in
ascending submission order, the chunk quantities summing to
`totalQuantity`; in particular `totalQuantity = 105, splitSize = 20`
yields exactly the six chunks `[20,20,20,20,20,5]` in order, whatever
the broker answers. -/
theorem splitOrder_chunks (total s : ℕ) (broker : ℕ → ℕ → Bool)
    (ht : 0 < total) (hs : 0 < s) :
    (splitOrder broker total s).length = (total + s - 1) / s ∧
    ((splitOrder broker total s).map (fun r => r.order_num) =
      List.range' 1 ((total + s - 1) / s)) ∧
    ((splitOrder broker total s).map (fun r => r.quantity) =
      List.replicate ((total + s - 1) / s - 1) s ++
        [if total % s = 0 then s else total % s]) ∧
    ((splitOrder broker total s).map (fun r => r.quantity)).sum = total ∧
    ((splitOrder broker 105 20).map (fun r => (r.order_num, r.quantity)) =
      [(1, 20), (2, 20), (3, 20), (4, 20), (5, 20), (6, 5)]) := by
  have hlen : (splitOrder broker total s).length = (splitQuantities total s).length := by
    unfold splitOrder
    simp [List.enum_length]
  have hqmap : (splitOrder broker total s).map (fun r => r.quantity) =
      splitQuantities total s := by
    unfold splitOrder
    rw [List.map_map]
    have hcomp : ((fun r : ChunkResult => r.quantity) ∘
        (fun iq : ℕ × ℕ => ChunkResult.mk (iq.1 + 1) iq.2 (broker (iq.1 + 1) iq.2))) =
        Prod.snd := rfl
    rw [hcomp, List.enum_map_snd]
  refine ⟨?_, ?_, ?_, ?_, rfl⟩
  · rw [hlen]
    exact splitQuantities_length total s hs
  · unfold splitOrder
    rw [List.map_map]
    have hcomp : ((fun r : ChunkResult => r.order_num) ∘
        (fun iq : ℕ × ℕ => ChunkResult.mk (iq.1 + 1) iq.2 (broker (iq.1 + 1) iq.2))) =
        (fun iq : ℕ × ℕ => iq.1 + 1) := rfl
    rw [hcomp]
    have hfst : (splitQuantities total s).enum.map (fun iq : ℕ × ℕ => iq.1 + 1) =
        ((splitQuantities total s).enum.map Prod.fst).map (fun i => i + 1) := by
      rw [List.map_map]
      rfl
    rw [hfst, List.enum_map_fst, splitQuantities_length total s hs]
    rw [List.range'_eq_map_range]
    apply List.map_congr_left
    intro a _
    omega
  · rw [hqmap]
    exact splitQuantities_form total s ht hs
  · rw [hqmap]
    exact splitQuantities_sum total s hs

/-- Witness for C9 at the documented example: 105 split by 20. -/
theorem splitOrder_chunks_witness :
    (0 < 105 ∧ 0 < 20) ∧
      (splitOrder (fun _ _ => true) 105 20).length = (105 + 20 - 1) / 20 ∧
      ((splitOrder (fun _ _ => true) 105 20).map (fun r => (r.order_num, r.quantity)) =
        [(1, 20), (2, 20), (3, 20), (4, 20), (5, 20), (6, 5)]) :=
  ⟨⟨by decide, by decide⟩,
    (splitOrder_chunks 105 20 (fun _ _ => true) (by decide) (by decide)).1,
    (splitOrder_chunks 105 20 (fun _ _ => true) (by decide) (by decide)).2.2.2.2⟩

end OpenAlgoFlow
